import Mathlib

/-!
# Verification of the Fenmo expense tracker's idempotent-write protocol

Shallow embedding of the repository's core subsystems and proofs about them:

* server `expenseController.js` (`getExpenses`, `createExpense`, `deleteExpense`)
  over a store whose uniqueness primitive is the compound unique index
  `{ user: 1, idempotencyKey: 1 }` declared on the Expense schema;
* the client `App.jsx` reliability layer (`requestWithRetry`,
  `savePendingExpense` / `clearPendingExpense`, the pending-load effect, the
  startup replay effect, `submitExpense`, `handleExpenseSubmit`).

JavaScript numbers are modelled as rationals (`ℚ`), with `none : Option ℚ`
standing for a non-finite `Number` (NaN/±Infinity).  A parsed `Date` is an
epoch timestamp `Int`, with `none : Option Int` standing for an Invalid Date
(`getTime()` is NaN).  String trimming is modelled by `jsTrim`.
-/

namespace Fenmo

/-- A persisted expense document (`ExpenseSchema`): `_id` is modelled as the
`Nat` handed out by the store's counter; `user` is the owner scope. -/
structure ExpenseRecord where
  id : Nat
  user : String
  amount : ℚ
  category : String
  description : String
  date : Int
  idempotencyKey : String
  deriving DecidableEq, Repr

/-- The MongoDB collection backing the Expense model: the list of persisted
documents plus the counter used to mint fresh `_id`s. -/
structure Store where
  records : List ExpenseRecord
  nextId : Nat
  deriving DecidableEq, Repr

def Store.empty : Store := ⟨[], 0⟩

/-- JavaScript whitespace for `String.prototype.trim` (the characters the
repository's payloads can realistically contain). -/
def isJsWhitespace (c : Char) : Bool :=
  c == ' ' || c == '\t' || c == '\n' || c == '\r' || c.val == 11 || c.val == 12

/-- JavaScript `String.prototype.trim`: strip leading and trailing
whitespace. -/
def jsTrim (s : String) : String :=
  ⟨((s.data.dropWhile isJsWhitespace).reverse.dropWhile
      isJsWhitespace).reverse⟩

/-- The match predicate of the compound index / lookups:
`{ user: u, idempotencyKey: k }`. -/
def matchesOwnerKey (u k : String) (r : ExpenseRecord) : Bool :=
  r.user == u && r.idempotencyKey == k

/-- `Expense.findOne({ user, idempotencyKey })`. -/
def findByOwnerAndKey (s : Store) (u k : String) : Option ExpenseRecord :=
  s.records.find? (matchesOwnerKey u k)

/-- Number of persisted documents for an `(ownerScope, idempotencyKey)`
pair. -/
def keyCount (s : Store) (u k : String) : Nat :=
  s.records.countP (matchesOwnerKey u k)

/-- `Expense.create(...)`: append a fresh document.  The uniqueness guarantee
of the compound index `{ user: 1, idempotencyKey: 1 }` is modelled at the call
sites: creation is only reached (sequentially) or only succeeds (in the
concurrent semantics) when `findByOwnerAndKey` is `none`. -/
def insertExpense (s : Store) (u : String) (a : ℚ) (c d : String) (dt : Int)
    (k : String) : ExpenseRecord × Store :=
  let r : ExpenseRecord := ⟨s.nextId, u, a, c, d, dt, k⟩
  (r, ⟨s.records ++ [r], s.nextId + 1⟩)

/-- `Number(parsedAmount.toFixed(2))`: round to two fractional digits — the
value `⌊a * 100 + 1/2⌋ / 100` (round half up; the exact tie-breaking of
`toFixed` on binary doubles is immaterial to every claim).  Expressed over
the reduced fraction `a.num / a.den` so that it evaluates by integer
arithmetic: `a * 100 + 1/2 = (200 * a.num + a.den) / (2 * a.den)`. -/
def round2 (a : ℚ) : ℚ :=
  mkRat (Int.ediv (200 * a.num + (a.den : Int)) (2 * (a.den : Int))) 100

/-- The request body of `POST /api/expenses` after JavaScript coercion:
`amount` is `some a` when `Number(amount)` is the finite value `a` and `none`
when it is NaN/±Infinity; `date` is `some t` when `new Date(date)` is a valid
date with epoch time `t` and `none` for an Invalid Date; the string fields
model `String(x || '')`. -/
structure CreateBody where
  amount : Option ℚ
  category : String
  description : String
  date : Option Int
  idempotencyKey : String
  deriving DecidableEq, Repr

/-- Outcome of `createExpense` as sent over HTTP:
400 `{success:false,error:msg}`, 200 `{success:true,info:'Retrieved existing
entry (Idempotent)'}`, 201 `{success:true}`, or 500 `{success:false}`. -/
inductive CreateResult
  | badRequest (msg : String)
  | existingRec (r : ExpenseRecord)
  | createdRec (r : ExpenseRecord)
  | serverError
  deriving DecidableEq, Repr

/-- Server-side payload validity, exactly the guards of `createExpense`
(lines 45-63): non-blank trimmed idempotency key, finite amount `> 0`,
non-blank trimmed category and description, parseable date. -/
def validBody (b : CreateBody) : Bool :=
  !(jsTrim b.idempotencyKey == "") &&
    (match b.amount with
     | none => false
     | some a => decide (0 < a)) &&
    !(jsTrim b.category == "") && !(jsTrim b.description == "") && b.date.isSome

/-- Result of the validation prefix of `createExpense` (lines 38-63): the
400 message of the first failing guard, or the coerced fields
`(parsedAmount, cleanCategory, cleanDescription, parsedDate,
cleanIdempotencyKey)` ready for the lookup/creation steps. -/
inductive Validated
  | invalid (msg : String)
  | fields (a : ℚ) (c d : String) (dt : Int) (k : String)
  deriving DecidableEq, Repr

/-- The validation guards of `createExpense` in source order (lines 38-63). -/
def validateCreate (b : CreateBody) : Validated :=
  let cleanKey := jsTrim b.idempotencyKey
  if cleanKey == "" then .invalid "Idempotency key is required"
  else
    match b.amount with
    | none => .invalid "Amount must be a positive number"
    | some a =>
      if a ≤ 0 then .invalid "Amount must be a positive number"
      else if jsTrim b.category == "" then .invalid "Category is required"
      else if jsTrim b.description == "" then .invalid "Description is required"
      else
        match b.date with
        | none => .invalid "A valid date is required"
        | some dt =>
          .fields a (jsTrim b.category) (jsTrim b.description) dt cleanKey

/-- `exports.createExpense` (expenseController.js lines 36-111), sequential
semantics: validation guards in source order, then the idempotency lookup,
then creation.  With an atomic store the duplicate-key catch branch cannot
fire; it is modelled separately (`duplicateKeyCatch`) and in the concurrent
semantics (`threadStep`). -/
def createExpense (u : String) (b : CreateBody) (s : Store) :
    CreateResult × Store :=
  match validateCreate b with
  | .invalid msg => (.badRequest msg, s)
  | .fields a c d dt k =>
    match findByOwnerAndKey s u k with
    | some r => (.existingRec r, s)
    | none =>
      let ins := insertExpense s u (round2 a) c d dt k
      (.createdRec ins.1, ins.2)

/-- The `catch` branch of `createExpense` for a duplicate-key rejection
(`error.code === 11000`, lines 88-109).  `visibleAt n` is the record the
`n`-th re-run of `Expense.findOne({user, idempotencyKey})` would observe
(modelling delayed visibility of a concurrent winner's write).  The source
performs exactly one `findOne`, i.e. consumes `visibleAt 0`; when it returns
nothing, control falls through past the `ValidationError` check (a duplicate
key error is not named `ValidationError`) to `res.status(500)`. -/
def duplicateKeyCatch (visibleAt : Nat → Option ExpenseRecord) : CreateResult :=
  match visibleAt 0 with
  | some r => .existingRec r
  | none => .serverError

/-- Modelled from the spec: the bounded-retry fallback of §4.5 step 4, which
is absent from the repository source — "re-run the lookup … retry the lookup
a small bounded number of times before surfacing a transient-error".
`retryLookup vis i n` tries lookups `vis i, vis (i+1), …` for `n` attempts. -/
def retryLookup (vis : Nat → Option ExpenseRecord) (i : Nat) :
    Nat → CreateResult
  | 0 => .serverError
  | n + 1 =>
    match vis i with
    | some r => .existingRec r
    | none => retryLookup vis (i + 1) n

/-- Modelled from the spec: duplicate-key recovery with `attempts` bounded
lookup retries (see `retryLookup`). -/
def duplicateKeyCatchRetry (vis : Nat → Option ExpenseRecord)
    (attempts : Nat) : CreateResult :=
  retryLookup vis 0 attempts

/-- Outcome of `deleteExpense` as sent over HTTP. -/
inductive DeleteResult
  | deletedRec (r : ExpenseRecord)
  | notFound
  deriving DecidableEq, Repr

/-- HTTP status of a delete response (lines 122-126). -/
def deleteHttpStatus : DeleteResult → Nat
  | .deletedRec _ => 200
  | .notFound => 404

/-- `success` field of a delete response. -/
def deleteSuccess : DeleteResult → Bool
  | .deletedRec _ => true
  | .notFound => false

/-- `error` field of a delete response. -/
def deleteErrorField : DeleteResult → Option String
  | .deletedRec _ => none
  | .notFound => some "Expense not found"

/-- Remove the first document matching `p` (what `findOneAndDelete`
deletes). -/
def removeFirst (p : ExpenseRecord → Bool) : List ExpenseRecord →
    List ExpenseRecord
  | [] => []
  | x :: xs => if p x then xs else x :: removeFirst p xs

/-- `exports.deleteExpense` (lines 115-134):
`Expense.findOneAndDelete({_id, user})`; a missing or foreign record — and
likewise a malformed id (`CastError`) — yields the 404 `notFound` response. -/
def deleteExpense (u : String) (rid : Nat) (s : Store) : DeleteResult × Store :=
  match s.records.find? (fun r => r.id == rid && r.user == u) with
  | some r =>
    (.deletedRec r,
      ⟨removeFirst (fun r => r.id == rid && r.user == u) s.records, s.nextId⟩)
  | none => (.notFound, s)

/-- Response of `GET /api/expenses`. -/
structure ListResponse where
  success : Bool
  total : ℚ
  count : Nat
  rows : List ExpenseRecord
  deriving DecidableEq, Repr

/-- Insertion step for the date sort. -/
def insertByDate (le : ExpenseRecord → ExpenseRecord → Bool)
    (r : ExpenseRecord) : List ExpenseRecord → List ExpenseRecord
  | [] => [r]
  | x :: xs => if le r x then r :: x :: xs else x :: insertByDate le r xs

/-- `.sort(sortOption)`: stable insertion sort under `le`. -/
def sortByDate (le : ExpenseRecord → ExpenseRecord → Bool)
    (l : List ExpenseRecord) : List ExpenseRecord :=
  l.foldr (insertByDate le) []

/-- `exports.getExpenses` (lines 5-32): filter by owner (and by category when
given), sort by date (`date_asc` ascending, otherwise newest first), and
report `total` as `reduce((acc, curr) => acc + curr.amount, 0)` and `count`
as the row count. -/
def getExpenses (u : String) (category : Option String) (sort : Option String)
    (s : Store) : ListResponse :=
  let q := fun (r : ExpenseRecord) =>
    r.user == u &&
      (match category with
       | some c => r.category == c
       | none => true)
  let le := if sort == some "date_asc" then
      fun (x y : ExpenseRecord) => decide (x.date ≤ y.date)
    else fun (x y : ExpenseRecord) => decide (y.date ≤ x.date)
  let expenses := sortByDate le (s.records.filter q)
  { success := true
    total := expenses.foldl (fun acc r => acc + r.amount) 0
    count := expenses.length
    rows := expenses }

/-! ## Client model (`App.jsx`, src/unnamed/part_000 first document) -/

/-- Result of one attempt of the wrapped axios call: a resolved response
(carrying an abstract value), or a rejection whose `error.response?.status`
is `some s` when a response arrived with status `s` and `none` for a network
failure with no response at all. -/
inductive NetAttempt
  | ok (v : Nat)
  | err (status : Option Nat)
  deriving DecidableEq, Repr

/-- `const retryable = !status || status >= 500` (line 63).  In JavaScript
`!status` is also true for a literal status `0`. -/
def jsRetryable : Option Nat → Bool
  | none => true
  | some s => s == 0 || 500 ≤ s

/-- Overall result of `requestWithRetry`: the resolved value, or the last
error's status rethrown to the caller. -/
inductive RetryOutcome
  | ok (v : Nat)
  | failed (lastStatus : Option Nat)
  deriving DecidableEq, Repr

/-- The loop body of `requestWithRetry` (lines 54-74): `attempt` is the
0-indexed attempt about to run, the recursion fuel is `retries - attempt`
(the `attempt === retries` exit).  `op n` is what the `n`-th execution of
`requestFn` does.  Returns the outcome together with the list of delays
awaited, in order; the delay recorded before re-running attempt `attempt+1`
is `delayMs * (attempt + 1)`. -/
def retryLoop (op : Nat → NetAttempt) (delayMs : Nat) (attempt : Nat) :
    Nat → RetryOutcome × List Nat
  | 0 =>
    match op attempt with
    | .ok v => (.ok v, [])
    | .err st => (.failed st, [])
  | left + 1 =>
    match op attempt with
    | .ok v => (.ok v, [])
    | .err st =>
      if jsRetryable st then
        let rest := retryLoop op delayMs (attempt + 1) left
        (rest.1, delayMs * (attempt + 1) :: rest.2)
      else (.failed st, [])

/-- `requestWithRetry(requestFn, retries, delayMs)` (lines 54-74). -/
def requestWithRetry (op : Nat → NetAttempt) (retries : Nat) (delayMs : Nat) :
    RetryOutcome × List Nat :=
  retryLoop op delayMs 0 retries

/-- The payload `submitExpense` posts:
`{amount, category, description, date, idempotencyKey}`.  `date` stays the
raw form string (the server parses it). -/
structure ClientPayload where
  amount : ℚ
  category : String
  description : String
  date : String
  idempotencyKey : String
  deriving DecidableEq, Repr

/-- A parsed record in the `expense_tracker_pending_expense` slot:
`{...payload, userKey}`.  `userKey = none` models an absent (or falsy)
`userKey` property. -/
structure PendingRecord where
  payload : ClientPayload
  userKey : Option String
  deriving DecidableEq, Repr

/-- What `localStorage` holds under the pending key: unparseable JSON
(`corrupt`) or a parsed record. -/
inductive SlotContent
  | corrupt
  | stored (p : PendingRecord)
  deriving DecidableEq, Repr

/-- The client state the claims are about: the durable single slot
(`localStorage`), the `pendingExpense` React state, and the
`replayAttempted` React state. -/
structure ClientState where
  slot : Option SlotContent
  pendingExpense : Option PendingRecord
  replayAttempted : Bool
  deriving DecidableEq, Repr

/-- `savePendingExpense(payload)` (lines 168-179): no-op without an
`accountKey`; otherwise writes `{...payload, userKey: accountKey}` to the
slot, replacing any prior record, and mirrors it in React state. -/
def savePendingExpense (accountKey : Option String) (payload : ClientPayload)
    (st : ClientState) : ClientState :=
  match accountKey with
  | none => st
  | some ak =>
    { st with
      slot := some (.stored ⟨payload, some ak⟩)
      pendingExpense := some ⟨payload, some ak⟩ }

/-- `clearPendingExpense()` (lines 163-166). -/
def clearPendingExpense (st : ClientState) : ClientState :=
  { st with slot := none, pendingExpense := none }

/-- The pending-load effect (lines 268-296), run when `accountKey` changes:
reset `replayAttempted`; with no account, or an empty slot, surface nothing;
purge an unparseable slot; keep a record whose `userKey` is absent or equals
the account; on a mismatching `userKey` surface nothing — the slot itself is
left in place (only the `catch` branch removes it). -/
def loadPendingEffect (accountKey : Option String) (st : ClientState) :
    ClientState :=
  let st := { st with replayAttempted := false }
  match accountKey with
  | none => { st with pendingExpense := none }
  | some ak =>
    match st.slot with
    | none => { st with pendingExpense := none }
    | some .corrupt => { st with slot := none, pendingExpense := none }
    | some (.stored p) =>
      match p.userKey with
      | some uk =>
        if uk == ak then { st with pendingExpense := some p }
        else { st with pendingExpense := none }
      | none => { st with pendingExpense := some p }

/-- Result of the transport call inside `submitExpense`: the POST resolved,
or every attempt failed and `requestWithRetry` rethrew. -/
inductive SubmitNet
  | netOk
  | netFail
  deriving DecidableEq, Repr

/-- `submitExpense(payload, { isReplay })` (lines 209-257), abstracting the
transport to its outcome `net`.  Returns the new client state and the posted
payload (`none` when no transport call was made, i.e. no auth token).  A
non-replay submission first persists the pending record; on success the
pending record is cleared; on failure it is kept for later resumption. -/
def submitExpense (tokenPresent : Bool) (accountKey : Option String)
    (payload : ClientPayload) (isReplay : Bool) (net : SubmitNet)
    (st : ClientState) : ClientState × Option ClientPayload :=
  if !tokenPresent then (st, none)
  else
    let st1 := if isReplay then st else savePendingExpense accountKey payload st
    match net with
    | .netOk => (clearPendingExpense st1, some payload)
    | .netFail => (st1, some payload)

/-- The expense form as `handleExpenseSubmit` reads it: `amount` is
`Number(expenseForm.amount)` (`none` = not finite), `customMode` is
`categoryInputType === 'custom'`, and `date` is the raw form string. -/
structure FormState where
  amount : Option ℚ
  customMode : Bool
  customCategory : String
  category : String
  description : String
  date : String
  deriving DecidableEq, Repr

/-- `handleExpenseSubmit` (lines 426-464): validation guards in source order
— amount finite and `> 0`, chosen category non-blank after trimming,
description non-blank after trimming, date *non-empty* (no calendar check) —
then `submitExpense` with a freshly generated idempotency key `newKey`.
Returns (new state, posted payload if the transport was reached, submit
error message if rejected). -/
def handleExpenseSubmit (tokenPresent : Bool) (accountKey : Option String)
    (f : FormState) (newKey : String) (net : SubmitNet) (st : ClientState) :
    ClientState × Option ClientPayload × Option String :=
  match f.amount with
  | none => (st, none, some "Amount must be greater than zero.")
  | some a =>
    if a ≤ 0 then (st, none, some "Amount must be greater than zero.")
    else
      let category :=
        if f.customMode then jsTrim f.customCategory else jsTrim f.category
      if category == "" then (st, none, some "Category is required.")
      else if jsTrim f.description == "" then
        (st, none, some "Description is required.")
      else if f.date == "" then (st, none, some "Date is required.")
      else
        let payload : ClientPayload :=
          ⟨a, category, jsTrim f.description, f.date, newKey⟩
        let r := submitExpense tokenPresent accountKey payload false net st
        (r.1, r.2, none)

/-- The startup replay effect (lines 298-305): do nothing without a token,
without a loaded pending record, or once `replayAttempted` is set; otherwise
set `replayAttempted` and resubmit the stored record through
`submitExpense(pending, { isReplay: true })`. -/
def replayEffect (tokenPresent : Bool) (accountKey : Option String)
    (net : SubmitNet) (st : ClientState) : ClientState × Option ClientPayload :=
  match st.pendingExpense with
  | none => (st, none)
  | some p =>
    if !tokenPresent || st.replayAttempted then (st, none)
    else
      submitExpense tokenPresent accountKey p.payload true net
        { st with replayAttempted := true }

/-- Iterate the replay effect over a sequence of re-renders (one transport
outcome per execution that fires), collecting every payload posted by the
replay path. -/
def runReplays (tokenPresent : Bool) (accountKey : Option String)
    (st : ClientState) : List SubmitNet → ClientState × List ClientPayload
  | [] => (st, [])
  | n :: rest =>
    let r := replayEffect tokenPresent accountKey n st
    let tail := runReplays tokenPresent accountKey r.1 rest
    (tail.1, r.2.toList ++ tail.2)

/-- Split a character list on `'-'`. -/
def splitOnDash : List Char → List (List Char)
  | [] => [[]]
  | c :: cs =>
    match splitOnDash cs with
    | [] => if c == '-' then [[], []] else [[c]]
    | g :: gs => if c == '-' then [] :: g :: gs else (c :: g) :: gs

/-- Decimal value of a digit list. -/
def digitsToNat (l : List Char) : Nat :=
  l.foldl (fun acc c => acc * 10 + (c.toNat - 48)) 0

/-- Modelled from the spec: validity of a calendar-date string
("date parses to a valid calendar date"), standing in for the host builtin
`new Date(...)` which is not part of the repository source: `YYYY-MM-DD`
digits with month 1-12 and day 1-31. -/
def validCalendarDate (s : String) : Bool :=
  match splitOnDash s.data with
  | [y, m, d] =>
    !y.isEmpty && !m.isEmpty && !d.isEmpty &&
      y.all Char.isDigit && m.all Char.isDigit && d.all Char.isDigit &&
      1 ≤ digitsToNat m && digitsToNat m ≤ 12 &&
      1 ≤ digitsToNat d && digitsToNat d ≤ 31
  | _ => false

/-! ## Concurrent semantics of the server write path

Each in-flight `POST /api/expenses` request is a thread whose atomic storage
operations interleave through a shared store.  The atomic units are: the
initial lookup (validation is thread-local and bundled with it), the
create-with-uniqueness-check (the compound unique index makes the
check-and-insert a single atomic storage primitive — a failing check is the
`E11000` duplicate-key rejection), and the catch-branch re-lookup. -/

/-- Program counter of one in-flight `createExpense` request. -/
inductive WritePhase
  | start
  | tryCreate (a : ℚ) (c d : String) (dt : Int) (k : String)
  | recheck (k : String)
  | done (out : CreateResult)
  deriving DecidableEq, Repr

/-- One in-flight request: verified caller identity, raw body, progress. -/
structure WriteThread where
  user : String
  body : CreateBody
  phase : WritePhase
  deriving DecidableEq, Repr

/-- One atomic step of a request against the current store. -/
def threadStep (s : Store) (t : WriteThread) : WriteThread × Store :=
  match t.phase with
  | .done _ => (t, s)
  | .start =>
    match validateCreate t.body with
    | .invalid msg => ({ t with phase := .done (.badRequest msg) }, s)
    | .fields a c d dt k =>
      match findByOwnerAndKey s t.user k with
      | some r => ({ t with phase := .done (.existingRec r) }, s)
      | none => ({ t with phase := .tryCreate a c d dt k }, s)
  | .tryCreate a c d dt k =>
    match findByOwnerAndKey s t.user k with
    | some _ => ({ t with phase := .recheck k }, s)
    | none =>
      let ins := insertExpense s t.user (round2 a) c d dt k
      ({ t with phase := .done (.createdRec ins.1) }, ins.2)
  | .recheck k =>
    match findByOwnerAndKey s t.user k with
    | some r => ({ t with phase := .done (.existingRec r) }, s)
    | none => ({ t with phase := .done .serverError }, s)

/-- The whole server side: shared store plus in-flight requests. -/
structure WriteSys where
  store : Store
  threads : List WriteThread
  deriving DecidableEq, Repr

/-- Scheduler step: let thread `i` (if any) perform its next atomic
operation. -/
def sysStep (sys : WriteSys) (i : Nat) : WriteSys :=
  match sys.threads[i]? with
  | none => sys
  | some t =>
    let r := threadStep sys.store t
    ⟨r.2, sys.threads.set i r.1⟩

/-- Run an arbitrary interleaving. -/
def sysRun (sys : WriteSys) (sched : List Nat) : WriteSys :=
  sched.foldl sysStep sys

/-- The trimmed idempotency key of a request body. -/
def cleanKey (b : CreateBody) : String := jsTrim b.idempotencyKey

/-- Per-thread invariant tying a request's progress to the store. -/
def threadInv (s : Store) (t : WriteThread) : Prop :=
  match t.phase with
  | .start => True
  | .tryCreate a c d dt k => validateCreate t.body = .fields a c d dt k
  | .recheck k =>
    (∃ a c d dt, validateCreate t.body = .fields a c d dt k) ∧
      ∃ r ∈ s.records, matchesOwnerKey t.user k r = true
  | .done (.createdRec r) =>
    ∃ a c d dt k, validateCreate t.body = .fields a c d dt k ∧
      r ∈ s.records ∧ matchesOwnerKey t.user k r = true
  | .done (.existingRec r) =>
    ∃ a c d dt k, validateCreate t.body = .fields a c d dt k ∧
      r ∈ s.records ∧ matchesOwnerKey t.user k r = true
  | .done (.badRequest msg) => validateCreate t.body = .invalid msg
  | .done .serverError => False

/-- `t` finished with a fresh-creation outcome. -/
def isCreated (t : WriteThread) : Prop :=
  ∃ r, t.phase = .done (.createdRec r)

/-- No two distinct in-flight requests sharing an `(ownerScope, key)` pair
have both finished with a fresh-creation outcome. -/
def PairwiseCreated (sys : WriteSys) : Prop :=
  ∀ (i j : Nat) (ti tj : WriteThread), i ≠ j → sys.threads[i]? = some ti →
    sys.threads[j]? = some tj → ti.user = tj.user →
    cleanKey ti.body = cleanKey tj.body → isCreated ti → isCreated tj →
    False

/-- Global invariant: per-pair uniqueness of the store, the per-thread
invariant, and at most one fresh creation per `(ownerScope, key)` pair. -/
def GlobalInv (sys : WriteSys) : Prop :=
  (∀ u k, keyCount sys.store u k ≤ 1) ∧
    (∀ t ∈ sys.threads, threadInv sys.store t) ∧ PairwiseCreated sys

/-! ## Basic lemmas -/

lemma mem_of_getElem?_threads {l : List WriteThread} {i : Nat}
    {t : WriteThread} (h : l[i]? = some t) : t ∈ l := by
  obtain ⟨hlt, rfl⟩ := List.getElem?_eq_some.mp h
  exact List.getElem_mem hlt

lemma getElem?_set_of_getElem? {l : List WriteThread} {i : Nat}
    {t t' : WriteThread} (h : l[i]? = some t) (j : Nat) :
    (l.set i t')[j]? = if i = j then some t' else l[j]? := by
  rcases List.getElem?_eq_some.mp h with ⟨hlt, -⟩
  rw [List.getElem?_set]
  by_cases hij : i = j
  · simp [hij, hij ▸ hlt]
  · simp [hij]

lemma validateCreate_eq_fields {b : CreateBody} {a : ℚ} {c d : String}
    {dt : Int} {k : String} (h : validateCreate b = .fields a c d dt k) :
    b.amount = some a ∧ 0 < a ∧ c = jsTrim b.category ∧
      d = jsTrim b.description ∧ b.date = some dt ∧
      k = jsTrim b.idempotencyKey ∧ validBody b = true := by
  unfold validateCreate at h
  simp only at h
  split at h
  · cases h
  · rename_i hkey
    cases hamt : b.amount with
    | none => rw [hamt] at h; cases h
    | some a0 =>
      rw [hamt] at h
      simp only at h
      split at h
      · cases h
      · rename_i hle
        split at h
        · cases h
        · rename_i hcat
          split at h
          · cases h
          · rename_i hdesc
            cases hdt : b.date with
            | none => rw [hdt] at h; cases h
            | some dt0 =>
              rw [hdt] at h
              simp only at h
              cases h
              refine ⟨rfl, lt_of_not_le hle, rfl, rfl, rfl, rfl, ?_⟩
              simp [validBody, hkey, hamt, hcat, hdesc, hdt,
                lt_of_not_le hle]

lemma validBody_true_fields {b : CreateBody} (h : validBody b = true) :
    ∃ a c d dt k, validateCreate b = .fields a c d dt k := by
  unfold validBody at h
  unfold validateCreate
  simp only [Bool.and_eq_true, Bool.not_eq_true'] at h
  obtain ⟨⟨⟨⟨hkey, hamt⟩, hcat⟩, hdesc⟩, hdate⟩ := h
  cases ha : b.amount with
  | none => rw [ha] at hamt; cases hamt
  | some a =>
    rw [ha] at hamt
    cases hd : b.date with
    | none => rw [hd] at hdate; cases hdate
    | some dt =>
      refine ⟨a, jsTrim b.category, jsTrim b.description, dt,
        jsTrim b.idempotencyKey, ?_⟩
      simp only [hkey, ha, hcat, hdesc, hd]
      have : ¬ a ≤ 0 := not_le.mpr (of_decide_eq_true hamt)
      simp [this]

lemma validateCreate_invalid_validBody {b : CreateBody} {msg : String}
    (h : validateCreate b = .invalid msg) : validBody b = false := by
  cases hv : validBody b
  · rfl
  · obtain ⟨a, c, d, dt, k, hf⟩ := validBody_true_fields hv
    rw [hf] at h
    cases h

lemma findByOwnerAndKey_none_iff {s : Store} {u k : String} :
    findByOwnerAndKey s u k = none ↔
      ∀ r ∈ s.records, matchesOwnerKey u k r = false := by
  unfold findByOwnerAndKey
  rw [List.find?_eq_none]
  constructor
  · intro h r hr
    exact Bool.not_eq_true _ |>.mp (h r hr)
  · intro h r hr
    simp [h r hr]

lemma findByOwnerAndKey_some {s : Store} {u k : String} {r : ExpenseRecord}
    (h : findByOwnerAndKey s u k = some r) :
    r ∈ s.records ∧ matchesOwnerKey u k r = true :=
  ⟨List.mem_of_find?_eq_some h, List.find?_some h⟩

lemma keyCount_eq_zero {s : Store} {u k : String}
    (h : findByOwnerAndKey s u k = none) : keyCount s u k = 0 := by
  unfold keyCount
  rw [List.countP_eq_zero]
  intro r hr
  simp [findByOwnerAndKey_none_iff.mp h r hr]

lemma matchesOwnerKey_new (u' k' : String) (n : Nat) (u : String) (a : ℚ)
    (c d : String) (dt : Int) (k : String) :
    matchesOwnerKey u' k' ⟨n, u, a, c, d, dt, k⟩ = (u == u' && k == k') := by
  simp [matchesOwnerKey, Bool.and_comm, eq_comm, BEq.beq]

lemma keyCount_insert (s : Store) (u : String) (a : ℚ) (c d : String)
    (dt : Int) (k : String) (u' k' : String) :
    keyCount (insertExpense s u a c d dt k).2 u' k' =
      keyCount s u' k' + (if u = u' ∧ k = k' then 1 else 0) := by
  unfold keyCount insertExpense
  rw [List.countP_append]
  simp only [List.countP_cons, List.countP_nil, Nat.zero_add]
  rw [matchesOwnerKey_new]
  by_cases h1 : u = u' <;> by_cases h2 : k = k' <;>
    simp [h1, h2]

lemma insertExpense_mem_mono {s : Store} (u : String) (a : ℚ) (c d : String)
    (dt : Int) (k : String) {r : ExpenseRecord} (hr : r ∈ s.records) :
    r ∈ (insertExpense s u a c d dt k).2.records :=
  List.mem_append_left _ hr

lemma threadInv_mono {s s' : Store}
    (hsub : ∀ r ∈ s.records, r ∈ s'.records) {t : WriteThread}
    (h : threadInv s t) : threadInv s' t := by
  unfold threadInv at h ⊢
  cases hp : t.phase with
  | start => trivial
  | tryCreate a c d dt k => rw [hp] at h; exact h
  | recheck k =>
    rw [hp] at h
    obtain ⟨hf, r, hr, hm⟩ := h
    exact ⟨hf, r, hsub r hr, hm⟩
  | done out =>
    rw [hp] at h
    cases out with
    | badRequest msg => exact h
    | serverError => exact h.elim
    | createdRec r =>
      obtain ⟨a, c, d, dt, k, hf, hr, hm⟩ := h
      exact ⟨a, c, d, dt, k, hf, hsub r hr, hm⟩
    | existingRec r =>
      obtain ⟨a, c, d, dt, k, hf, hr, hm⟩ := h
      exact ⟨a, c, d, dt, k, hf, hsub r hr, hm⟩

/-! ### Step equations -/

lemma threadStep_done {s : Store} {t : WriteThread} {out : CreateResult}
    (hp : t.phase = .done out) : threadStep s t = (t, s) := by
  unfold threadStep; simp only [hp]

lemma threadStep_start_invalid {s : Store} {t : WriteThread} {msg : String}
    (hp : t.phase = .start) (hv : validateCreate t.body = .invalid msg) :
    threadStep s t = ({ t with phase := .done (.badRequest msg) }, s) := by
  unfold threadStep; simp only [hp, hv]

lemma threadStep_start_found {s : Store} {t : WriteThread} {a : ℚ}
    {c d : String} {dt : Int} {k : String} {r : ExpenseRecord}
    (hp : t.phase = .start) (hv : validateCreate t.body = .fields a c d dt k)
    (hf : findByOwnerAndKey s t.user k = some r) :
    threadStep s t = ({ t with phase := .done (.existingRec r) }, s) := by
  unfold threadStep; simp only [hp, hv, hf]

lemma threadStep_start_notfound {s : Store} {t : WriteThread} {a : ℚ}
    {c d : String} {dt : Int} {k : String}
    (hp : t.phase = .start) (hv : validateCreate t.body = .fields a c d dt k)
    (hf : findByOwnerAndKey s t.user k = none) :
    threadStep s t = ({ t with phase := .tryCreate a c d dt k }, s) := by
  unfold threadStep; simp only [hp, hv, hf]

lemma threadStep_try_dup {s : Store} {t : WriteThread} {a : ℚ}
    {c d : String} {dt : Int} {k : String} {r : ExpenseRecord}
    (hp : t.phase = .tryCreate a c d dt k)
    (hf : findByOwnerAndKey s t.user k = some r) :
    threadStep s t = ({ t with phase := .recheck k }, s) := by
  unfold threadStep; simp only [hp, hf]

lemma threadStep_try_insert {s : Store} {t : WriteThread} {a : ℚ}
    {c d : String} {dt : Int} {k : String}
    (hp : t.phase = .tryCreate a c d dt k)
    (hf : findByOwnerAndKey s t.user k = none) :
    threadStep s t =
      ({ t with phase :=
          (.done (.createdRec (insertExpense s t.user (round2 a) c d dt k).1)) },
        (insertExpense s t.user (round2 a) c d dt k).2) := by
  unfold threadStep; simp only [hp, hf]

lemma threadStep_recheck_found {s : Store} {t : WriteThread} {k : String}
    {r : ExpenseRecord} (hp : t.phase = .recheck k)
    (hf : findByOwnerAndKey s t.user k = some r) :
    threadStep s t = ({ t with phase := .done (.existingRec r) }, s) := by
  unfold threadStep; simp only [hp, hf]

lemma threadStep_recheck_miss {s : Store} {t : WriteThread} {k : String}
    (hp : t.phase = .recheck k)
    (hf : findByOwnerAndKey s t.user k = none) :
    threadStep s t = ({ t with phase := .done .serverError }, s) := by
  unfold threadStep; simp only [hp, hf]

lemma sysStep_eq_some {sys : WriteSys} {i : Nat} {t : WriteThread}
    (h : sys.threads[i]? = some t) :
    sysStep sys i =
      ⟨(threadStep sys.store t).2,
        sys.threads.set i (threadStep sys.store t).1⟩ := by
  unfold sysStep; rw [h]

lemma sysStep_eq_none {sys : WriteSys} {i : Nat}
    (h : sys.threads[i]? = none) : sysStep sys i = sys := by
  unfold sysStep; rw [h]

lemma threadStep_mem_mono (s : Store) (t : WriteThread) {r : ExpenseRecord}
    (hr : r ∈ s.records) : r ∈ (threadStep s t).2.records := by
  cases hp : t.phase with
  | done out => rw [threadStep_done hp]; exact hr
  | start =>
    cases hv : validateCreate t.body with
    | invalid msg => rw [threadStep_start_invalid hp hv]; exact hr
    | fields a c d dt k =>
      cases hf : findByOwnerAndKey s t.user k with
      | some r2 => rw [threadStep_start_found hp hv hf]; exact hr
      | none => rw [threadStep_start_notfound hp hv hf]; exact hr
  | tryCreate a c d dt k =>
    cases hf : findByOwnerAndKey s t.user k with
    | some r2 => rw [threadStep_try_dup hp hf]; exact hr
    | none =>
      rw [threadStep_try_insert hp hf]
      exact insertExpense_mem_mono _ _ _ _ _ _ hr
  | recheck k =>
    cases hf : findByOwnerAndKey s t.user k with
    | some r2 => rw [threadStep_recheck_found hp hf]; exact hr
    | none => rw [threadStep_recheck_miss hp hf]; exact hr

/-- A step that leaves the store unchanged and moves the scheduled thread to
a non-created state preserves the global invariant. -/
lemma globalInv_set_benign {sys : WriteSys} {i : Nat} {t t' : WriteThread}
    (hti : sys.threads[i]? = some t)
    (hcount : ∀ u k, keyCount sys.store u k ≤ 1)
    (hthread : ∀ x ∈ sys.threads, threadInv sys.store x)
    (hpair : PairwiseCreated sys)
    (hinv' : threadInv sys.store t')
    (hnc : ¬ isCreated t') :
    GlobalInv ⟨sys.store, sys.threads.set i t'⟩ := by
  refine ⟨hcount, ?_, ?_⟩
  · intro x hx
    rcases List.mem_or_eq_of_mem_set hx with hx | rfl
    · exact hthread x hx
    · exact hinv'
  · intro j l tj tl hjl hj hl huser hkey hcj hcl
    simp only at hj hl
    rw [getElem?_set_of_getElem? hti] at hj hl
    by_cases hij : i = j
    · rw [if_pos hij] at hj
      cases hj
      exact hnc hcj
    · rw [if_neg hij] at hj
      by_cases hil : i = l
      · rw [if_pos hil] at hl
        cases hl
        exact hnc hcl
      · rw [if_neg hil] at hl
        exact hpair j l tj tl hjl hj hl huser hkey hcj hcl

/-- A step that leaves both the store and the scheduled thread unchanged
preserves the global invariant. -/
lemma globalInv_set_same {sys : WriteSys} {i : Nat} {t : WriteThread}
    (hti : sys.threads[i]? = some t)
    (hcount : ∀ u k, keyCount sys.store u k ≤ 1)
    (hthread : ∀ x ∈ sys.threads, threadInv sys.store x)
    (hpair : PairwiseCreated sys) :
    GlobalInv ⟨sys.store, sys.threads.set i t⟩ := by
  refine ⟨hcount, ?_, ?_⟩
  · intro x hx
    rcases List.mem_or_eq_of_mem_set hx with hx | rfl
    · exact hthread x hx
    · exact hthread _ (mem_of_getElem?_threads hti)
  · intro j l tj tl hjl hj hl huser hkey hcj hcl
    simp only at hj hl
    rw [getElem?_set_of_getElem? hti] at hj hl
    have hj' : sys.threads[j]? = some tj := by
      by_cases hij : i = j
      · rw [if_pos hij] at hj
        cases hj
        rw [← hij]
        exact hti
      · rwa [if_neg hij] at hj
    have hl' : sys.threads[l]? = some tl := by
      by_cases hil : i = l
      · rw [if_pos hil] at hl
        cases hl
        rw [← hil]
        exact hti
      · rwa [if_neg hil] at hl
    exact hpair j l tj tl hjl hj' hl' huser hkey hcj hcl

lemma matchesOwnerKey_iff {u k : String} {r : ExpenseRecord} :
    matchesOwnerKey u k r = true ↔ r.user = u ∧ r.idempotencyKey = k := by
  simp [matchesOwnerKey]

/-- Every scheduler step preserves the global invariant. -/
lemma sysStep_inv {sys : WriteSys} (h : GlobalInv sys) (i : Nat) :
    GlobalInv (sysStep sys i) := by
  obtain ⟨hcount, hthread, hpair⟩ := h
  cases hti : sys.threads[i]? with
  | none => rw [sysStep_eq_none hti]; exact ⟨hcount, hthread, hpair⟩
  | some t =>
    rw [sysStep_eq_some hti]
    have htinv : threadInv sys.store t :=
      hthread t (mem_of_getElem?_threads hti)
    cases hp : t.phase with
    | done out =>
      rw [threadStep_done hp]
      exact globalInv_set_same hti hcount hthread hpair
    | start =>
      cases hv : validateCreate t.body with
      | invalid msg =>
        rw [threadStep_start_invalid hp hv]
        refine globalInv_set_benign hti hcount hthread hpair ?_ ?_
        · simp only [threadInv]
          exact hv
        · rintro ⟨r2, hr2⟩
          cases hr2
      | fields a c d dt k =>
        cases hf : findByOwnerAndKey sys.store t.user k with
        | some r =>
          rw [threadStep_start_found hp hv hf]
          obtain ⟨hrmem, hrmatch⟩ := findByOwnerAndKey_some hf
          refine globalInv_set_benign hti hcount hthread hpair ?_ ?_
          · simp only [threadInv]
            exact ⟨a, c, d, dt, k, hv, hrmem, hrmatch⟩
          · rintro ⟨r2, hr2⟩
            cases hr2
        | none =>
          rw [threadStep_start_notfound hp hv hf]
          refine globalInv_set_benign hti hcount hthread hpair ?_ ?_
          · simp only [threadInv]
            exact hv
          · rintro ⟨r2, hr2⟩
            cases hr2
    | tryCreate a c d dt k =>
      simp only [threadInv, hp] at htinv
      cases hf : findByOwnerAndKey sys.store t.user k with
      | some r =>
        rw [threadStep_try_dup hp hf]
        obtain ⟨hrmem, hrmatch⟩ := findByOwnerAndKey_some hf
        refine globalInv_set_benign hti hcount hthread hpair ?_ ?_
        · simp only [threadInv]
          exact ⟨⟨a, c, d, dt, htinv⟩, r, hrmem, hrmatch⟩
        · rintro ⟨r2, hr2⟩
          cases hr2
      | none =>
        rw [threadStep_try_insert hp hf]
        refine ⟨?_, ?_, ?_⟩
        · intro u' k'
          simp only
          rw [keyCount_insert]
          by_cases huk : t.user = u' ∧ k = k'
          · rw [if_pos huk]
            obtain ⟨hu, hk⟩ := huk
            rw [← hu, ← hk, keyCount_eq_zero hf]
          · rw [if_neg huk]
            simpa using hcount u' k'
        · intro x hx
          simp only at hx
          rcases List.mem_or_eq_of_mem_set hx with hx | rfl
          · exact threadInv_mono
              (fun r hr => insertExpense_mem_mono _ _ _ _ _ _ hr)
              (hthread x hx)
          · simp only [threadInv]
            refine ⟨a, c, d, dt, k, htinv, ?_, ?_⟩
            · exact List.mem_append_right _ (List.mem_singleton.mpr rfl)
            · simp [matchesOwnerKey, insertExpense]
        · intro j l tj tl hjl hj hl huser hkey hcj hcl
          simp only at hj hl
          rw [getElem?_set_of_getElem? hti] at hj hl
          have hkeyt : k = cleanKey t.body := by
            have := validateCreate_eq_fields htinv
            exact this.2.2.2.2.2.1
          have foreignCreated :
              ∀ (tx : WriteThread), tx ∈ sys.threads → tx.user = t.user →
                cleanKey tx.body = cleanKey t.body → isCreated tx → False := by
            intro tx hmem hxuser hxkey ⟨rx, hrx⟩
            have hxinv := hthread tx hmem
            simp only [threadInv, hrx] at hxinv
            obtain ⟨a2, c2, d2, dt2, k2, hf2, hrxmem, hrxmatch⟩ := hxinv
            have hk2 : k2 = cleanKey tx.body :=
              (validateCreate_eq_fields hf2).2.2.2.2.2.1
            obtain ⟨hru, hrk⟩ := matchesOwnerKey_iff.mp hrxmatch
            have : matchesOwnerKey t.user k rx = true := by
              rw [matchesOwnerKey_iff]
              constructor
              · rw [hru, hxuser]
              · rw [hrk, hk2, hxkey, hkeyt]
            have hnone := findByOwnerAndKey_none_iff.mp hf rx hrxmem
            rw [this] at hnone
            cases hnone
          by_cases hij : i = j
          · rw [if_pos hij] at hj
            cases hj
            by_cases hil : i = l
            · exact hjl (hij ▸ hil ▸ rfl)
            · rw [if_neg hil] at hl
              refine foreignCreated tl (mem_of_getElem?_threads hl) ?_ ?_ hcl
              · exact huser.symm
              · exact hkey.symm
          · rw [if_neg hij] at hj
            by_cases hil : i = l
            · rw [if_pos hil] at hl
              cases hl
              exact foreignCreated tj (mem_of_getElem?_threads hj) huser hkey
                hcj
            · rw [if_neg hil] at hl
              exact hpair j l tj tl hjl hj hl huser hkey hcj hcl
    | recheck k =>
      simp only [threadInv, hp] at htinv
      obtain ⟨hfex, r, hrmem, hrmatch⟩ := htinv
      cases hf : findByOwnerAndKey sys.store t.user k with
      | some r2 =>
        rw [threadStep_recheck_found hp hf]
        obtain ⟨hr2mem, hr2match⟩ := findByOwnerAndKey_some hf
        refine globalInv_set_benign hti hcount hthread hpair ?_ ?_
        · simp only [threadInv]
          obtain ⟨a, c, d, dt, hfv⟩ := hfex
          exact ⟨a, c, d, dt, k, hfv, hr2mem, hr2match⟩
        · rintro ⟨r3, hr3⟩
          cases hr3
      | none =>
        have := findByOwnerAndKey_none_iff.mp hf r hrmem
        rw [hrmatch] at this
        cases this

lemma sysRun_inv {sys : WriteSys} (h : GlobalInv sys) (sched : List Nat) :
    GlobalInv (sysRun sys sched) := by
  induction sched generalizing sys with
  | nil => exact h
  | cons i rest ih => exact ih (sysStep_inv h i)

/-- A batch of incoming `POST /api/expenses` requests, none yet started,
over an empty collection. -/
def initialSys (reqs : List (String × CreateBody)) : WriteSys :=
  ⟨Store.empty, reqs.map (fun ub => ⟨ub.1, ub.2, .start⟩)⟩

lemma initialSys_inv (reqs : List (String × CreateBody)) :
    GlobalInv (initialSys reqs) := by
  refine ⟨?_, ?_, ?_⟩
  · intro u k
    simp [keyCount, Store.empty, initialSys]
  · intro t ht
    simp only [initialSys, List.mem_map] at ht
    obtain ⟨ub, -, rfl⟩ := ht
    simp [threadInv]
  · intro j l tj tl hjl hj hl huser hkey hcj hcl
    simp only [initialSys, List.getElem?_map] at hj
    cases hq : reqs[j]? with
    | none => rw [hq] at hj; cases hj
    | some ub =>
      rw [hq] at hj
      cases hj
      obtain ⟨r, hr⟩ := hcj
      cases hr

/-! ## Claim theorems -/

/-- **C1.** For every owner scope `O` and idempotency key `K`, any batch of
create-expense requests — any interleaving `sched`, identical or differing
payloads — leaves at most one persisted record per `(O, K)` pair
(`keyCount ≤ 1`); every completed valid request for `(O, K)` returns a
success outcome carrying exactly the persisted `(O, K)` record, either as
`createdRec` or as `existingRec` (never an error); and at most one request
per pair finishes as `createdRec`, so every call after the first successful
creation returns the same record marked as already existing. -/
theorem c1_write_uniqueness (reqs : List (String × CreateBody))
    (sched : List Nat) :
    (∀ u k, keyCount (sysRun (initialSys reqs) sched).store u k ≤ 1) ∧
      (∀ t ∈ (sysRun (initialSys reqs) sched).threads, ∀ out,
        t.phase = .done out → validBody t.body = true →
        ∃ r ∈ (sysRun (initialSys reqs) sched).store.records,
          r.user = t.user ∧ r.idempotencyKey = jsTrim t.body.idempotencyKey ∧
            (out = .createdRec r ∨ out = .existingRec r)) ∧
      PairwiseCreated (sysRun (initialSys reqs) sched) := by
  obtain ⟨hcount, hthread, hpair⟩ := sysRun_inv (initialSys_inv reqs) sched
  refine ⟨hcount, ?_, hpair⟩
  intro t ht out hout hvalid
  have htinv := hthread t ht
  simp only [threadInv, hout] at htinv
  cases out with
  | badRequest msg =>
    rw [validateCreate_invalid_validBody htinv] at hvalid
    cases hvalid
  | serverError => exact htinv.elim
  | createdRec r =>
    obtain ⟨a, c, d, dt, k, hf, hrmem, hrmatch⟩ := htinv
    obtain ⟨hru, hrk⟩ := matchesOwnerKey_iff.mp hrmatch
    have hk : k = jsTrim t.body.idempotencyKey :=
      (validateCreate_eq_fields hf).2.2.2.2.2.1
    exact ⟨r, hrmem, hru, hk ▸ hrk, Or.inl rfl⟩
  | existingRec r =>
    obtain ⟨a, c, d, dt, k, hf, hrmem, hrmatch⟩ := htinv
    obtain ⟨hru, hrk⟩ := matchesOwnerKey_iff.mp hrmatch
    have hk : k = jsTrim t.body.idempotencyKey :=
      (validateCreate_eq_fields hf).2.2.2.2.2.1
    exact ⟨r, hrmem, hru, hk ▸ hrk, Or.inr rfl⟩

/-- Two concurrent duplicate requests by owner `"A"` with key `"abc"`,
interleaved so that both pass the initial lookup and race the creation. -/
def c1body : CreateBody := ⟨some 10, "Food", "Dinner", some 100, "abc"⟩

def c1reqs : List (String × CreateBody) := [("A", c1body), ("A", c1body)]

def c1sched : List Nat := [0, 1, 0, 1, 1]

def c1rec : ExpenseRecord := ⟨0, "A", 10, "Food", "Dinner", 100, "abc"⟩

def c1threadFin : WriteThread := ⟨"A", c1body, .done (.existingRec c1rec)⟩

/-- Witness for `c1_write_uniqueness` on a concrete racing interleaving:
the loser of the creation race really finished with the `existingRec`
outcome for the single persisted `("A", "abc")` record. -/
theorem c1_write_uniqueness_witness :
    keyCount (sysRun (initialSys c1reqs) c1sched).store "A" "abc" ≤ 1 ∧
      ∃ r ∈ (sysRun (initialSys c1reqs) c1sched).store.records,
        r.user = c1threadFin.user ∧
          r.idempotencyKey = jsTrim c1threadFin.body.idempotencyKey ∧
          (CreateResult.existingRec c1rec = .createdRec r ∨
            CreateResult.existingRec c1rec = .existingRec r) :=
  ⟨(c1_write_uniqueness c1reqs c1sched).1 "A" "abc",
    (c1_write_uniqueness c1reqs c1sched).2.1 c1threadFin (by decide)
      (.existingRec c1rec) (by decide) (by decide)⟩

lemma findByOwnerAndKey_insert_otherUser {s : Store} {u : String} (a : ℚ)
    (c d : String) (dt : Int) (k : String) {u' k' : String} (hne : u ≠ u') :
    findByOwnerAndKey (insertExpense s u a c d dt k).2 u' k' =
      findByOwnerAndKey s u' k' := by
  unfold findByOwnerAndKey insertExpense
  simp only
  rw [List.find?_append]
  have : matchesOwnerKey u' k' ⟨s.nextId, u, a, c, d, dt, k⟩ = false := by
    simp [matchesOwnerKey, hne]
  simp [this]

/-- **C2.** For distinct owner scopes `O1 ≠ O2` and one shared idempotency
key, running the create-expense write for `O1` and then for `O2` (same
payload) creates two distinct records, one per owner, both carrying the
shared (trimmed) key; the second owner's write is a fresh creation
(`createdRec`), not a duplicate (`existingRec`) of the first owner's
record. -/
theorem c2_owner_isolation (O1 O2 : String) (b : CreateBody) (s : Store)
    (hO : O1 ≠ O2) (hv : validBody b = true)
    (h1 : findByOwnerAndKey s O1 (jsTrim b.idempotencyKey) = none)
    (h2 : findByOwnerAndKey s O2 (jsTrim b.idempotencyKey) = none) :
    ∃ r1 r2 s1 s2,
      createExpense O1 b s = (.createdRec r1, s1) ∧
        createExpense O2 b s1 = (.createdRec r2, s2) ∧
        r1.user = O1 ∧ r2.user = O2 ∧
        r1.idempotencyKey = jsTrim b.idempotencyKey ∧
        r2.idempotencyKey = jsTrim b.idempotencyKey ∧
        r1 ≠ r2 ∧ r1 ∈ s2.records ∧ r2 ∈ s2.records := by
  obtain ⟨a, c, d, dt, k, hf⟩ := validBody_true_fields hv
  have hk : k = jsTrim b.idempotencyKey :=
    (validateCreate_eq_fields hf).2.2.2.2.2.1
  have h1' : findByOwnerAndKey s O1 k = none := by rw [hk]; exact h1
  have h2' : findByOwnerAndKey s O2 k = none := by rw [hk]; exact h2
  refine ⟨(insertExpense s O1 (round2 a) c d dt k).1,
    (insertExpense (insertExpense s O1 (round2 a) c d dt k).2 O2 (round2 a)
      c d dt k).1,
    (insertExpense s O1 (round2 a) c d dt k).2,
    (insertExpense (insertExpense s O1 (round2 a) c d dt k).2 O2 (round2 a)
      c d dt k).2, ?_, ?_, rfl, rfl, hk ▸ rfl, hk ▸ rfl, ?_, ?_, ?_⟩
  · unfold createExpense
    simp only [hf, h1']
  · unfold createExpense
    simp only [hf,
      findByOwnerAndKey_insert_otherUser (round2 a) c d dt k hO, h2']
  · intro hcontra
    exact hO (congrArg ExpenseRecord.user hcontra)
  · exact insertExpense_mem_mono _ _ _ _ _ _
      (List.mem_append_right _ (List.mem_singleton.mpr rfl))
  · exact List.mem_append_right _ (List.mem_singleton.mpr rfl)

def c2body : CreateBody := ⟨some 5, "Food", "Tea", some 7, "k1"⟩

/-- Witness for `c2_owner_isolation`: owners `"A"` and `"B"` sharing key
`"k1"` over the empty store. -/
theorem c2_owner_isolation_witness :
    ∃ r1 r2 s1 s2,
      createExpense "A" c2body Store.empty = (.createdRec r1, s1) ∧
        createExpense "B" c2body s1 = (.createdRec r2, s2) ∧
        r1.user = "A" ∧ r2.user = "B" ∧
        r1.idempotencyKey = jsTrim c2body.idempotencyKey ∧
        r2.idempotencyKey = jsTrim c2body.idempotencyKey ∧
        r1 ≠ r2 ∧ r1 ∈ s2.records ∧ r2 ∈ s2.records :=
  c2_owner_isolation "A" "B" c2body Store.empty (by decide) (by decide)
    (by decide) (by decide)

def c3pending : PendingRecord :=
  ⟨⟨5, "Food", "Tea", "2026-02-18", "key-a"⟩, some "A"⟩

def c3state : ClientState := ⟨some (.stored c3pending), none, false⟩

/-- Counterexample to C3 as stated: a pending record saved under owner
`"A"`, loaded while account `"B"` is active, is treated as absent
(`pendingExpense = none`) — but the record is **not** purged from durable
storage: the slot still holds it after the load. -/
theorem c3_foreign_pending_counterexample :
    (loadPendingEffect (some "B") c3state).pendingExpense = none ∧
      (loadPendingEffect (some "B") c3state).slot = some (.stored c3pending) ∧
      (loadPendingEffect (some "B") c3state).slot ≠ none := by
  refine ⟨rfl, rfl, ?_⟩
  decide

/-- **C3 (amended).** When the pending slot holds a record whose recorded
owner differs from the active account, the load surfaces no pending record
(so the replay effect never posts it against the new owner) — but the
record stays in durable storage unchanged; only unparseable slot data is
purged. -/
theorem c3_foreign_pending_amended (ak uk : String) (p : ClientPayload)
    (st : ClientState) (hne : uk ≠ ak) :
    (loadPendingEffect (some ak)
        { st with slot := some (.stored ⟨p, some uk⟩) }).pendingExpense =
        none ∧
      (loadPendingEffect (some ak)
          { st with slot := some (.stored ⟨p, some uk⟩) }).slot =
        some (.stored ⟨p, some uk⟩) ∧
      ∀ (token : Bool) (ak2 : Option String) (net : SubmitNet),
        (replayEffect token ak2 net
            (loadPendingEffect (some ak)
              { st with slot := some (.stored ⟨p, some uk⟩) })).2 = none := by
  have hbeq : (uk == ak) = false := by simp [hne]
  refine ⟨?_, ?_, ?_⟩
  · simp [loadPendingEffect, hbeq]
  · simp [loadPendingEffect, hbeq]
  · intro token ak2 net
    simp [loadPendingEffect, hbeq, replayEffect]

/-- Witness for `c3_foreign_pending_amended` at owners `"A"` vs `"B"`. -/
theorem c3_foreign_pending_amended_witness :
    (loadPendingEffect (some "B")
        { c3state with
          slot := some (.stored ⟨c3pending.payload, some "A"⟩) }).pendingExpense =
        none ∧
      (loadPendingEffect (some "B")
          { c3state with
            slot := some (.stored ⟨c3pending.payload, some "A"⟩) }).slot =
        some (.stored ⟨c3pending.payload, some "A"⟩) ∧
      ∀ (token : Bool) (ak2 : Option String) (net : SubmitNet),
        (replayEffect token ak2 net
            (loadPendingEffect (some "B")
              { c3state with
                slot :=
                  some (.stored ⟨c3pending.payload, some "A"⟩) })).2 =
          none :=
  c3_foreign_pending_amended "B" "A" c3pending.payload c3state (by decide)

/-- **C9.** A parseable pending record lacking a `userKey` passes the
ownership check for *any* active account (the check only fires when a
`userKey` is present): the load surfaces it, and the replay effect then
posts its payload under the currently active account. -/
theorem c9_missing_userkey_accepted (ak : String) (p : ClientPayload)
    (st : ClientState) :
    (loadPendingEffect (some ak)
        { st with slot := some (.stored ⟨p, none⟩) }).pendingExpense =
        some ⟨p, none⟩ ∧
      ∀ net,
        (replayEffect true (some ak) net
            (loadPendingEffect (some ak)
              { st with slot := some (.stored ⟨p, none⟩) })).2 = some p := by
  refine ⟨by simp [loadPendingEffect], ?_⟩
  intro net
  cases net <;>
    simp [loadPendingEffect, replayEffect, submitExpense, savePendingExpense,
      clearPendingExpense]

def c4rec : ExpenseRecord := ⟨3, "A", 12, "Food", "Tea", 50, "kdup"⟩

/-- Visibility oracle: the winner's write is invisible to the first re-run
of the lookup but visible from the second on. -/
def c4vis : Nat → Option ExpenseRecord :=
  fun n => if n = 0 then none else some c4rec

/-- Counterexample to C4's bounded-retry clause: when the concurrent
winner's write is not yet visible at the single catch-branch re-lookup
(`c4vis 0 = none`) but would be visible at a second lookup
(`c4vis 1 = some _`), the source immediately surfaces the generic 500
server error — it performs no retry of the lookup — whereas the spec's
bounded-retry recovery (here 3 attempts) returns the record as already
existing. -/
theorem c4_dup_retry_counterexample :
    duplicateKeyCatch c4vis = .serverError ∧
      c4vis 1 = some c4rec ∧
      duplicateKeyCatchRetry c4vis 3 = .existingRec c4rec :=
  ⟨rfl, rfl, rfl⟩

/-- **C4 (amended).** On a duplicate-key rejection the service re-runs the
existence lookup exactly once: a found record is returned as already
existing; a miss surfaces a 500 server error immediately.  The outcome
depends only on the first re-lookup result — no further lookup is ever
consulted. -/
theorem c4_dup_single_relookup (vis vis2 : Nat → Option ExpenseRecord) :
    (∀ r, vis 0 = some r → duplicateKeyCatch vis = .existingRec r) ∧
      (vis 0 = none → duplicateKeyCatch vis = .serverError) ∧
      (vis 0 = vis2 0 → duplicateKeyCatch vis = duplicateKeyCatch vis2) := by
  refine ⟨?_, ?_, ?_⟩
  · intro r h
    simp [duplicateKeyCatch, h]
  · intro h
    simp [duplicateKeyCatch, h]
  · intro h
    simp [duplicateKeyCatch, h]

/-- Witness for `c4_dup_single_relookup` at concrete oracles. -/
theorem c4_dup_single_relookup_witness :
    duplicateKeyCatch (fun _ => some c4rec) = .existingRec c4rec ∧
      duplicateKeyCatch c4vis = .serverError ∧
      duplicateKeyCatch c4vis = duplicateKeyCatch (fun _ => none) :=
  ⟨(c4_dup_single_relookup (fun _ => some c4rec) (fun _ => none)).1 c4rec
      rfl,
    (c4_dup_single_relookup c4vis (fun _ => none)).2.1 rfl,
    (c4_dup_single_relookup c4vis (fun _ => none)).2.2 rfl⟩

def c5recA : ExpenseRecord := ⟨0, "A", 9, "Rent", "July", 30, "kA"⟩

def c5store : Store := ⟨[c5recA], 1⟩

/-- Counterexample to C5's "not reported as an error or failure": deleting
record 0 (owned by `"A"`) as owner `"B"` removes nothing and produces the
`notFound` outcome — which the server reports as HTTP 404 with
`success: false` and an `error` field, i.e. as an error/failure, not as a
benign success outcome. -/
theorem c5_delete_error_counterexample :
    deleteExpense "B" 0 c5store = (.notFound, c5store) ∧
      deleteSuccess .notFound = false ∧
      deleteHttpStatus .notFound = 404 ∧
      deleteErrorField .notFound = some "Expense not found" :=
  ⟨by decide, rfl, rfl, rfl⟩

lemma removeFirst_cons (p : ExpenseRecord → Bool) (x : ExpenseRecord)
    (xs : List ExpenseRecord) :
    removeFirst p (x :: xs) = if p x then xs else x :: removeFirst p xs := rfl

lemma removeFirst_subset (p : ExpenseRecord → Bool)
    {l : List ExpenseRecord} {z : ExpenseRecord}
    (hz : z ∈ removeFirst p l) : z ∈ l := by
  induction l with
  | nil => cases hz
  | cons w ws ihw =>
    rw [removeFirst_cons] at hz
    by_cases hw : p w = true
    · rw [if_pos hw] at hz
      exact List.mem_cons_of_mem w hz
    · rw [if_neg hw] at hz
      rcases List.mem_cons.mp hz with rfl | hz
      · exact List.mem_cons_self _ _
      · exact List.mem_cons_of_mem w (ihw hz)

lemma find?_removeFirst_none {p : ExpenseRecord → Bool}
    {l : List ExpenseRecord} {r : ExpenseRecord}
    (hfind : l.find? p = some r)
    (hkeyed : ∀ x ∈ l, ∀ y ∈ l, p x = true → p y = true → x.id = y.id)
    (hnd : (l.map ExpenseRecord.id).Nodup) :
    (removeFirst p l).find? p = none := by
  induction l with
  | nil => cases hfind
  | cons x xs ih =>
    rw [List.map_cons, List.nodup_cons] at hnd
    rw [removeFirst_cons]
    by_cases hx : p x = true
    · rw [if_pos hx]
      rw [List.find?_eq_none]
      intro y hy hpy
      have hid : x.id = y.id :=
        hkeyed x (List.mem_cons_self x xs) y (List.mem_cons_of_mem x hy) hx
          hpy
      exact hnd.1 (hid ▸ List.mem_map_of_mem ExpenseRecord.id hy)
    · rw [if_neg hx]
      have hfind2 : xs.find? p = some r := by
        rw [List.find?_cons] at hfind
        split at hfind
        · rename_i hpx
          exact absurd hpx hx
        · exact hfind
      rw [List.find?_cons]
      split
      · rename_i hpx
        exact absurd hpx hx
      · exact ih hfind2
          (fun a ha b hb hpa hpb =>
            hkeyed a (List.mem_cons_of_mem x ha) b
              (List.mem_cons_of_mem x hb) hpa hpb)
          hnd.2

/-- **C5 (amended).** `deleteExpense` removes a record only when it belongs
to the requesting owner; when the record is missing or belongs to another
owner nothing is removed and the `notFound` outcome is returned — reported
as HTTP 404 with `success: false` (an error report, not a benign success);
and repeating a delete after a success removes nothing further: the second
call yields the same 404 not-found outcome with the store unchanged. -/
theorem c5_delete_owner_scoped (u : String) (rid : Nat) (s : Store) :
    (∀ r s2, deleteExpense u rid s = (.deletedRec r, s2) →
        r ∈ s.records ∧ r.user = u ∧ r.id = rid) ∧
      ((∀ r ∈ s.records, ¬(r.id = rid ∧ r.user = u)) →
        deleteExpense u rid s = (.notFound, s)) ∧
      deleteSuccess .notFound = false ∧ deleteHttpStatus .notFound = 404 ∧
      (∀ r s2, deleteExpense u rid s = (.deletedRec r, s2) →
        (s.records.map ExpenseRecord.id).Nodup →
        deleteExpense u rid s2 = (.notFound, s2)) := by
  refine ⟨?_, ?_, rfl, rfl, ?_⟩
  · intro r s2 h
    unfold deleteExpense at h
    cases hfind : s.records.find? (fun x => x.id == rid && x.user == u) with
    | none =>
      rw [hfind] at h
      cases h
    | some r2 =>
      rw [hfind] at h
      simp only [Prod.mk.injEq, DeleteResult.deletedRec.injEq] at h
      obtain ⟨rfl, -⟩ := h
      have hmem := List.mem_of_find?_eq_some hfind
      have hp := List.find?_some hfind
      simp only [Bool.and_eq_true, beq_iff_eq] at hp
      exact ⟨hmem, hp.2, hp.1⟩
  · intro hnone
    unfold deleteExpense
    have : s.records.find? (fun x => x.id == rid && x.user == u) = none := by
      rw [List.find?_eq_none]
      intro x hx
      simp only [Bool.and_eq_true, beq_iff_eq]
      intro ⟨h1, h2⟩
      exact hnone x hx ⟨h1, h2⟩
    rw [this]
  · intro r s2 h hnd
    unfold deleteExpense at h
    cases hfind : s.records.find? (fun x => x.id == rid && x.user == u) with
    | none =>
      rw [hfind] at h
      cases h
    | some r2 =>
      rw [hfind] at h
      simp only [Prod.mk.injEq, DeleteResult.deletedRec.injEq] at h
      obtain ⟨rfl, rfl⟩ := h
      unfold deleteExpense
      have hkeyed : ∀ x ∈ s.records, ∀ y ∈ s.records,
          (fun z => z.id == rid && z.user == u) x = true →
          (fun z => z.id == rid && z.user == u) y = true → x.id = y.id := by
        intro x hx y hy hpx hpy
        simp only [Bool.and_eq_true, beq_iff_eq] at hpx hpy
        rw [hpx.1, hpy.1]
      rw [find?_removeFirst_none hfind hkeyed hnd]

/-- Witness for `c5_delete_owner_scoped`: owner `"A"` deletes their record
0 from `c5store`, and a repeat of the same delete is a 404 no-op. -/
theorem c5_delete_owner_scoped_witness :
    (c5recA ∈ c5store.records ∧ c5recA.user = "A" ∧ c5recA.id = 0) ∧
      deleteExpense "B" 0 c5store = (.notFound, c5store) ∧
      deleteExpense "A" 0 ⟨[], 1⟩ = (.notFound, ⟨[], 1⟩) :=
  ⟨(c5_delete_owner_scoped "A" 0 c5store).1 c5recA ⟨[], 1⟩ (by decide),
    (c5_delete_owner_scoped "B" 0 c5store).2.1 (by decide),
    (c5_delete_owner_scoped "A" 0 c5store).2.2.2.2 c5recA ⟨[], 1⟩ (by decide)
      (by decide)⟩

lemma range_map_cons (f : Nat → Nat) (n : Nat) :
    f 0 :: (List.range n).map (fun i => f (i + 1)) =
      (List.range (n + 1)).map f := by
  rw [List.range_succ_eq_map]
  simp [List.map_map, Function.comp]

lemma retryLoop_not_retryable {op : Nat → NetAttempt} {delayMs attempt : Nat}
    {st : Option Nat} (left : Nat) (h : op attempt = .err st)
    (hnr : jsRetryable st = false) :
    retryLoop op delayMs attempt left = (.failed st, []) := by
  cases left <;> simp [retryLoop, h, hnr]

lemma retryLoop_delays (op : Nat → NetAttempt) (delayMs : Nat) :
    ∀ left attempt, ∃ n,
      (retryLoop op delayMs attempt left).2 =
          (List.range n).map (fun i => delayMs * (attempt + 1 + i)) ∧
        n ≤ left := by
  intro left
  induction left with
  | zero =>
    intro attempt
    refine ⟨0, ?_, Nat.le_refl 0⟩
    unfold retryLoop
    cases op attempt <;> simp
  | succ left ih =>
    intro attempt
    unfold retryLoop
    cases hop : op attempt with
    | ok v => exact ⟨0, by simp, Nat.zero_le _⟩
    | err st =>
      by_cases hr : jsRetryable st = true
      · obtain ⟨n, hn, hle⟩ := ih (attempt + 1)
        refine ⟨n + 1, ?_, Nat.succ_le_succ hle⟩
        simp only [hr, if_true]
        rw [hn]
        have harith :
            (fun i => delayMs * (attempt + 1 + 1 + i)) =
              fun i => delayMs * (attempt + 1 + (i + 1)) := by
          funext i
          ring_nf
        rw [harith]
        exact range_map_cons (fun i => delayMs * (attempt + 1 + i)) n
      · rw [Bool.not_eq_true] at hr
        simp [hr]

lemma retryLoop_exhaust (op : Nat → NetAttempt) (delayMs : Nat) :
    ∀ left attempt,
      (∀ n, attempt ≤ n → n ≤ attempt + left →
        ∃ st, op n = .err st ∧ jsRetryable st = true) →
      ∃ st, op (attempt + left) = .err st ∧
        retryLoop op delayMs attempt left =
          (.failed st,
            (List.range left).map (fun i => delayMs * (attempt + 1 + i))) := by
  intro left
  induction left with
  | zero =>
    intro attempt h
    obtain ⟨st, hst, -⟩ := h attempt (Nat.le_refl _) (by omega)
    exact ⟨st, by simpa using hst, by simp [retryLoop, hst]⟩
  | succ left ih =>
    intro attempt h
    obtain ⟨st0, hst0, hr0⟩ := h attempt (Nat.le_refl _) (by omega)
    obtain ⟨st, hst, heq⟩ := ih (attempt + 1) (fun n h1 h2 => h n (by omega)
      (by omega))
    refine ⟨st, ?_, ?_⟩
    · rw [show attempt + (left + 1) = attempt + 1 + left by omega]
      exact hst
    unfold retryLoop
    rw [hst0]
    simp only [hr0, if_true]
    rw [heq]
    refine Prod.ext rfl ?_
    simp only
    have harith :
        (fun i => delayMs * (attempt + 1 + 1 + i)) =
          fun i => delayMs * (attempt + 1 + (i + 1)) := by
      funext i
      ring_nf
    rw [harith]
    exact range_map_cons (fun i => delayMs * (attempt + 1 + i)) left

lemma retryLoop_retried_only_retryable (op : Nat → NetAttempt)
    (delayMs : Nat) :
    ∀ left attempt i, i < (retryLoop op delayMs attempt left).2.length →
      ∃ st, op (attempt + i) = .err st ∧ jsRetryable st = true := by
  intro left
  induction left with
  | zero =>
    intro attempt i hi
    unfold retryLoop at hi
    cases hop : op attempt <;> rw [hop] at hi <;> simp at hi
  | succ left ih =>
    intro attempt i hi
    unfold retryLoop at hi
    cases hop : op attempt with
    | ok v =>
      rw [hop] at hi
      simp at hi
    | err st =>
      rw [hop] at hi
      by_cases hr : jsRetryable st = true
      · simp only [hr, if_true, List.length_cons] at hi
        cases i with
        | zero => exact ⟨st, by simpa using hop, hr⟩
        | succ i =>
          obtain ⟨st2, hst2, hr2⟩ := ih (attempt + 1) i (by omega)
          refine ⟨st2, ?_, hr2⟩
          rw [show attempt + (i + 1) = attempt + 1 + i by omega]
          exact hst2
      · rw [Bool.not_eq_true] at hr
        simp [hr] at hi

/-- **C7.** `requestWithRetry` (i) never retries a first-attempt failure
with a 4xx status (the call fails at once with that error and no delay is
awaited); (ii) the observed delays are exactly `delayMs * k` for the `k`-th
retry, 1-indexed (linear backoff); (iii) at most `retries` additional
attempts happen; (iv) when every attempt up to `retries` fails retryably,
the loop stops after `retries` retries and surfaces the *last* error;
(v) assuming genuine HTTP statuses (≥ 100), every retry was preceded by a
retryable failure: no response at all, or a status ≥ 500 — never a 4xx. -/
theorem c7_retry_transport (op : Nat → NetAttempt) (retries delayMs : Nat) :
    (∀ s, op 0 = .err (some s) → 400 ≤ s → s < 500 →
        requestWithRetry op retries delayMs = (.failed (some s), [])) ∧
      ((requestWithRetry op retries delayMs).2 =
        (List.range (requestWithRetry op retries delayMs).2.length).map
          (fun i => delayMs * (i + 1))) ∧
      (requestWithRetry op retries delayMs).2.length ≤ retries ∧
      ((∀ n, n ≤ retries → ∃ st, op n = .err st ∧ jsRetryable st = true) →
        ∃ st, op retries = .err st ∧
          requestWithRetry op retries delayMs =
            (.failed st,
              (List.range retries).map (fun i => delayMs * (i + 1)))) ∧
      ((∀ n s, op n = .err (some s) → 100 ≤ s) →
        ∀ i, i < (requestWithRetry op retries delayMs).2.length →
          op i = .err none ∨ ∃ s, op i = .err (some s) ∧ 500 ≤ s) := by
  obtain ⟨n, hn, hnle⟩ := retryLoop_delays op delayMs retries 0
  have hlen : (requestWithRetry op retries delayMs).2.length = n := by
    unfold requestWithRetry
    rw [hn]
    simp
  refine ⟨?_, ?_, ?_, ?_, ?_⟩
  · intro s h h4 h5
    have hnr : jsRetryable (some s) = false := by
      simp [jsRetryable]
      omega
    exact retryLoop_not_retryable retries h hnr
  · have hfun : (fun i => delayMs * (0 + 1 + i)) =
        fun i => delayMs * (i + 1) := by
      funext i
      ring_nf
    have hlen2 : (retryLoop op delayMs 0 retries).2.length = n := by
      rw [hn]
      simp
    show (retryLoop op delayMs 0 retries).2 = _
    rw [hn, hfun, hlen]
  · rw [hlen]
    exact hnle
  · intro hall
    obtain ⟨st, hst, heq⟩ :=
      retryLoop_exhaust op delayMs retries 0 (fun m h1 h2 => hall m (by omega))
    refine ⟨st, by simpa using hst, ?_⟩
    have hfun : (fun i => delayMs * (0 + 1 + i)) =
        fun i => delayMs * (i + 1) := by
      funext i
      ring_nf
    show retryLoop op delayMs 0 retries = _
    rw [heq, hfun]
  · intro hhttp i hi
    obtain ⟨st, hst, hr⟩ :=
      retryLoop_retried_only_retryable op delayMs retries 0 i (by
        unfold requestWithRetry at hi
        exact hi)
    rw [Nat.zero_add] at hst
    cases st with
    | none => exact Or.inl hst
    | some s =>
      refine Or.inr ⟨s, hst, ?_⟩
      have h100 := hhttp i s hst
      simp [jsRetryable] at hr
      rcases hr with hr | hr
      · omega
      · exact hr

/-- The spec's backoff example: two 503 failures, then success. -/
def c7op : Nat → NetAttempt := fun n => if n < 2 then .err (some 503) else .ok 7

/-- A call that always fails with status 400. -/
def c7op400 : Nat → NetAttempt := fun _ => .err (some 400)

/-- Witness for `c7_retry_transport`: the 503-503-success call (retries = 2,
base delay 600) succeeds with delays `[600, 1200]`; a 400 failure is never
retried; and each observed retry of the 503 run followed a retryable
failure. -/
theorem c7_retry_transport_witness :
    requestWithRetry c7op 2 600 = (.ok 7, [600, 1200]) ∧
      requestWithRetry c7op400 5 600 = (.failed (some 400), []) ∧
      (requestWithRetry c7op 2 600).2.length ≤ 2 ∧
      ∀ i, i < (requestWithRetry c7op 2 600).2.length →
        c7op i = .err none ∨ ∃ s, c7op i = .err (some s) ∧ 500 ≤ s := by
  refine ⟨by decide, ?_, ?_, ?_⟩
  · exact (c7_retry_transport c7op400 5 600).1 400 rfl (by decide) (by decide)
  · exact (c7_retry_transport c7op 2 600).2.2.1
  · refine (c7_retry_transport c7op 2 600).2.2.2.2 ?_
    intro n s h
    by_cases hn : n < 2
    · simp [c7op, hn] at h
      omega
    · simp [c7op, hn] at h

lemma replayEffect_attempted {token : Bool} {ak : Option String}
    {net : SubmitNet} {st : ClientState} (h : st.replayAttempted = true) :
    replayEffect token ak net st = (st, none) := by
  unfold replayEffect
  cases st.pendingExpense with
  | none => rfl
  | some p => simp [h]

lemma runReplays_attempted {token : Bool} {ak : Option String}
    {st : ClientState} (nets : List SubmitNet)
    (h : st.replayAttempted = true) :
    runReplays token ak st nets = (st, []) := by
  induction nets with
  | nil => rfl
  | cons n rest ih =>
    unfold runReplays
    rw [replayEffect_attempted h]
    simp [ih]

lemma runReplays_cons_eq {token : Bool} {ak : Option String} {n : SubmitNet}
    {st st2 : ClientState} {res : Option ClientPayload}
    (rest : List SubmitNet) (h : replayEffect token ak n st = (st2, res)) :
    runReplays token ak st (n :: rest) =
      ((runReplays token ak st2 rest).1,
        res.toList ++ (runReplays token ak st2 rest).2) := by
  have h0 : runReplays token ak st (n :: rest) =
      ((runReplays token ak (replayEffect token ak n st).1 rest).1,
        (replayEffect token ak n st).2.toList ++
          (runReplays token ak (replayEffect token ak n st).1 rest).2) := rfl
  rw [h0, h]

/-- Core of C6: from any client state, any number of replay-effect
executions posts at most once, every post carries the stored pending
payload (hence the stored idempotency key — no fresh one), and the durable
slot ends as it began or cleared — never replaced by a new pending
record. -/
lemma runReplays_bound (token : Bool) (ak : Option String) (st : ClientState)
    (nets : List SubmitNet) :
    (runReplays token ak st nets).2.length ≤ 1 ∧
      (∀ q ∈ (runReplays token ak st nets).2,
        ∃ p, st.pendingExpense = some p ∧ q = p.payload) ∧
      ((runReplays token ak st nets).1.slot = st.slot ∨
        (runReplays token ak st nets).1.slot = none) := by
  induction nets generalizing st with
  | nil =>
    refine ⟨by simp [runReplays], ?_, Or.inl rfl⟩
    intro q hq
    simp [runReplays] at hq
  | cons n rest ih =>
    cases hpend : st.pendingExpense with
    | none =>
      have hr : replayEffect token ak n st = (st, none) := by
        unfold replayEffect
        rw [hpend]
      rw [runReplays_cons_eq rest hr]
      refine ⟨(ih st).1, ?_, (ih st).2.2⟩
      intro q hq
      obtain ⟨p2, hp2, -⟩ := (ih st).2.1 q hq
      rw [hpend] at hp2
      cases hp2
    | some p =>
      by_cases hguard : (!token || st.replayAttempted) = true
      · have hr : replayEffect token ak n st = (st, none) := by
          unfold replayEffect
          rw [hpend]
          simp [hguard]
        rw [runReplays_cons_eq rest hr]
        refine ⟨(ih st).1, ?_, (ih st).2.2⟩
        intro q hq
        obtain ⟨p2, hp2, hq2⟩ := (ih st).2.1 q hq
        rw [hpend] at hp2
        exact ⟨p2, hp2, hq2⟩
      · have htoken : token = true := by
          cases token
          · simp at hguard
          · rfl
        have hatt : st.replayAttempted = false := by
          simp [htoken] at hguard
          exact hguard
        cases n with
        | netOk =>
          have hr : replayEffect token ak .netOk st =
              (clearPendingExpense { st with replayAttempted := true },
                some p.payload) := by
            unfold replayEffect
            rw [hpend]
            simp [htoken, hatt, submitExpense]
          rw [runReplays_cons_eq rest hr,
            runReplays_attempted rest rfl]
          refine ⟨by simp, ?_, Or.inr rfl⟩
          intro q hq
          simp at hq
          exact ⟨p, rfl, hq⟩
        | netFail =>
          have hr : replayEffect token ak .netFail st =
              ({ st with replayAttempted := true }, some p.payload) := by
            unfold replayEffect
            rw [hpend]
            simp [htoken, hatt, submitExpense]
          rw [runReplays_cons_eq rest hr,
            runReplays_attempted rest rfl]
          refine ⟨by simp, ?_, Or.inl rfl⟩
          intro q hq
          simp at hq
          exact ⟨p, rfl, hq⟩

/-- **C6.** Within one account activation — the pending-load effect runs
once (resetting `replayAttempted` and surfacing any stored record), then
the replay effect executes arbitrarily many times as the component
re-renders — the startup replay posts the stored pending record at most
once, the posted payload is exactly the stored one (same idempotency key,
none allocated), and the durable slot is only ever kept or cleared (no
second pending record is written).  In particular after a failed replay
(`netFail`) no further automatic post occurs. -/
theorem c6_replay_at_most_once (token : Bool) (acct : Option String)
    (st0 : ClientState) (nets : List SubmitNet) :
    (runReplays token acct (loadPendingEffect acct st0) nets).2.length ≤ 1 ∧
      (∀ q ∈ (runReplays token acct (loadPendingEffect acct st0) nets).2,
        ∃ p, (loadPendingEffect acct st0).pendingExpense = some p ∧
          q = p.payload) ∧
      ((runReplays token acct (loadPendingEffect acct st0) nets).1.slot =
          (loadPendingEffect acct st0).slot ∨
        (runReplays token acct (loadPendingEffect acct st0) nets).1.slot =
          none) :=
  runReplays_bound token acct (loadPendingEffect acct st0) nets

def c6payload : ClientPayload := ⟨8, "Rent", "May", "2026-05-01", "key-r"⟩

def c6state : ClientState :=
  ⟨some (.stored ⟨c6payload, some "A"⟩), none, true⟩

/-- Witness for `c6_replay_at_most_once`: account "A" activates with a
stored pending record and two re-renders whose replay both fail — exactly
one post happens, carrying the stored payload, and the slot is kept. -/
theorem c6_replay_at_most_once_witness :
    (runReplays true (some "A") (loadPendingEffect (some "A") c6state)
        [.netFail, .netFail]).2.length ≤ 1 ∧
      (∃ p, (loadPendingEffect (some "A") c6state).pendingExpense = some p ∧
        c6payload = p.payload) :=
  ⟨(c6_replay_at_most_once true (some "A") c6state [.netFail, .netFail]).1,
    (c6_replay_at_most_once true (some "A") c6state
        [.netFail, .netFail]).2.1 c6payload (by decide)⟩

/-- The validation guards of `handleExpenseSubmit` (lines 437-455): finite
amount `> 0`, chosen category non-blank after trimming, description
non-blank after trimming, and date *non-empty* — the client never checks
that the date is a valid calendar date. -/
def validForm (f : FormState) : Bool :=
  (match f.amount with
   | none => false
   | some a => decide (0 < a)) &&
    !((if f.customMode then jsTrim f.customCategory else jsTrim f.category)
        == "") &&
    !(jsTrim f.description == "") && !(f.date == "")

def c8form : FormState := ⟨some 5, false, "", "Food", "Dinner", "2026-13-99"⟩

def c8payload : ClientPayload := ⟨5, "Food", "Dinner", "2026-13-99", "k9"⟩

/-- Counterexample to C8 as stated: the submission whose date
`"2026-13-99"` is not a valid calendar date (month 13) but is non-empty is
*not* rejected by the client — it writes a pending record to the durable
slot and reaches the transport (a payload is posted). -/
theorem c8_validation_counterexample :
    validCalendarDate "2026-13-99" = false ∧ ("2026-13-99" : String) ≠ "" ∧
      handleExpenseSubmit true (some "A") c8form "k9" .netFail
          ⟨none, none, false⟩ =
        (⟨some (.stored ⟨c8payload, some "A"⟩), some ⟨c8payload, some "A"⟩,
            false⟩,
          some c8payload, none) :=
  ⟨by decide, by decide, by decide⟩

/-- **C8 (amended).** The client rejects a submission whose amount is not a
finite number `> 0`, whose chosen category or description is blank after
trimming, or whose date is *empty* — before any pending record is written
(state unchanged) and before any transport call (nothing posted); calendar
validity of a non-empty date is checked only on the server.  On the server,
an invalid payload (empty trimmed idempotency key, non-positive or
non-finite amount, blank category or description, or unparseable date) is
rejected with a 400 validation error, the store is unchanged, and the
outcome is independent of the store contents — the uniqueness lookup and
creation are never reached. -/
theorem c8_validation_precedence :
    (∀ (token : Bool) (acct : Option String) (f : FormState) (key : String)
        (net : SubmitNet) (st : ClientState), validForm f = false →
        ∃ msg, handleExpenseSubmit token acct f key net st =
          (st, none, some msg)) ∧
      ∀ (u : String) (b : CreateBody) (s : Store), validBody b = false →
        ∃ msg, createExpense u b s = (.badRequest msg, s) ∧
          ∀ s2 : Store, (createExpense u b s2).1 = (createExpense u b s).1 := by
  constructor
  · intro token acct f key net st hv
    unfold handleExpenseSubmit
    cases ha : f.amount with
    | none => exact ⟨_, rfl⟩
    | some a =>
      by_cases hle : a ≤ 0
      · simp only [hle, if_true]
        exact ⟨_, rfl⟩
      · simp only [hle, if_false]
        by_cases hcat :
            ((if f.customMode then jsTrim f.customCategory
                else jsTrim f.category) == "") = true
        · simp only [hcat, if_true]
          exact ⟨_, rfl⟩
        · rw [Bool.not_eq_true] at hcat
          simp only [hcat, if_false]
          by_cases hdesc : (jsTrim f.description == "") = true
          · simp only [hdesc, if_true]
            exact ⟨_, rfl⟩
          · rw [Bool.not_eq_true] at hdesc
            simp only [hdesc, if_false]
            by_cases hdate : (f.date == "") = true
            · simp only [hdate, if_true]
              exact ⟨_, rfl⟩
            · exfalso
              rw [Bool.not_eq_true] at hdate
              unfold validForm at hv
              rw [ha] at hv
              simp only [hcat, hdesc, hdate, Bool.not_false, Bool.and_true,
                Bool.and_eq_false_iff, decide_eq_false_iff_not] at hv
              exact hv (lt_of_not_le hle)
  · intro u b s hv
    have hinv : ∃ msg, validateCreate b = .invalid msg := by
      cases hvc : validateCreate b with
      | invalid msg => exact ⟨msg, rfl⟩
      | fields a c d dt k =>
        have := (validateCreate_eq_fields hvc).2.2.2.2.2.2
        rw [this] at hv
        cases hv
    obtain ⟨msg, hmsg⟩ := hinv
    refine ⟨msg, ?_, ?_⟩
    · unfold createExpense
      rw [hmsg]
    · intro s2
      unfold createExpense
      rw [hmsg]

def c8badform : FormState := ⟨some 0, false, "", "Food", "Dinner", "2026-02-18"⟩

def c8badbody : CreateBody := ⟨some 0, "Food", "Dinner", some 5, "kz"⟩

/-- Witness for `c8_validation_precedence`: a zero-amount form is rejected
by the client with no state change and no post, and a zero-amount body is
rejected by the server with the store unchanged, independent of its
contents. -/
theorem c8_validation_precedence_witness :
    (∃ msg, handleExpenseSubmit true (some "A") c8badform "k0" .netFail
        ⟨none, none, false⟩ = (⟨none, none, false⟩, none, some msg)) ∧
      ∃ msg, createExpense "A" c8badbody Store.empty =
          (.badRequest msg, Store.empty) ∧
        ∀ s2 : Store, (createExpense "A" c8badbody s2).1 =
          (createExpense "A" c8badbody Store.empty).1 :=
  ⟨c8_validation_precedence.1 true (some "A") c8badform "k0" .netFail
      ⟨none, none, false⟩ (by decide),
    c8_validation_precedence.2 "A" c8badbody Store.empty (by decide)⟩

lemma foldl_add_amount (l : List ExpenseRecord) (init : ℚ) :
    l.foldl (fun acc r => acc + r.amount) init =
      init + (l.map ExpenseRecord.amount).sum := by
  induction l generalizing init with
  | nil => simp
  | cons x xs ih => simp [ih, add_assoc]

/-- **C10.** Every `getExpenses` response has `success = true`, reports
`total` equal to the sum of the `amount` fields of the returned rows and
`count` equal to the number of returned rows; in particular an empty result
yields `total = 0` and `count = 0`. -/
theorem c10_list_totals (u : String) (cat srt : Option String) (s : Store) :
    (getExpenses u cat srt s).success = true ∧
      (getExpenses u cat srt s).total =
        ((getExpenses u cat srt s).rows.map ExpenseRecord.amount).sum ∧
      (getExpenses u cat srt s).count =
        (getExpenses u cat srt s).rows.length ∧
      ((getExpenses u cat srt s).rows = [] →
        (getExpenses u cat srt s).total = 0 ∧
          (getExpenses u cat srt s).count = 0) := by
  have hgen : ∀ l : List ExpenseRecord,
      List.foldl (fun acc r => acc + r.amount) (0 : ℚ) l =
        (l.map ExpenseRecord.amount).sum := by
    intro l
    rw [foldl_add_amount]
    exact zero_add _
  have htotal : (getExpenses u cat srt s).total =
      ((getExpenses u cat srt s).rows.map ExpenseRecord.amount).sum :=
    hgen _
  refine ⟨rfl, htotal, rfl, ?_⟩
  intro hrows
  constructor
  · rw [htotal, hrows]
    simp
  · show (getExpenses u cat srt s).rows.length = 0
    rw [hrows]
    rfl

/-- Witness for `c10_list_totals`: the empty result over the empty store
yields total 0 and count 0. -/
theorem c10_list_totals_witness :
    (getExpenses "A" none none Store.empty).total = 0 ∧
      (getExpenses "A" none none Store.empty).count = 0 :=
  (c10_list_totals "A" none none Store.empty).2.2.2 (by decide)

end Fenmo
